import Mathlib

/-!
Shallow embedding of the ScopeFoundry `BaseApp` settings path-registry
(src/base_app/base_app.py) and the `DataBrowser` application
(src/data_browser/data_browser.py), together with proofs of the spec's
testable properties about them.

Python dictionaries are modelled as association lists with Python's
semantics: assignment to an existing key updates it in place, assignment
to a fresh key appends, `pop(k, None)` removes the key if present.
-/

namespace ScopeFoundry

/-! ### Python dict model -/

/-- `d.get(k, None)` on a Python dict modelled as an association list. -/
def dictGet {α : Type} (d : List (String × α)) (k : String) : Option α :=
  match d with
  | [] => none
  | (k', v) :: rest => if k' = k then some v else dictGet rest k

/-- `d[k] = v` on a Python dict: updates the key in place if present,
appends it otherwise. -/
def dictSet {α : Type} (d : List (String × α)) (k : String) (v : α) :
    List (String × α) :=
  match d with
  | [] => [(k, v)]
  | (k', v') :: rest => if k' = k then (k, v) :: rest else (k', v') :: dictSet rest k v

/-- `d.pop(k, None)` on a Python dict: removes the key if present, no-op otherwise. -/
def dictPop {α : Type} (d : List (String × α)) (k : String) : List (String × α) :=
  match d with
  | [] => []
  | (k', v') :: rest => if k' = k then rest else (k', v') :: dictPop rest k

/-- `list(d.keys())` on a Python dict. -/
def dictKeys {α : Type} (d : List (String × α)) : List String :=
  d.map (·.1)

/-- `k in d` on a Python dict. -/
def dictMem {α : Type} (d : List (String × α)) (k : String) : Bool :=
  (dictGet d k).isSome

/-! ### Values and setting types

The Logged Quantity class itself is not under src/; its value model is
taken from the spec: a Setting has a value of a declared primitive type
(bool, int, float, string, enumerated choice, file path).  A float value
is identified with its canonical decimal string, since the spec only
constrains its exact canonical string form. -/

inductive Value where
  | vBool (b : Bool)
  | vInt (n : Int)
  | vFloat (s : String)
  | vStr (s : String)
deriving Repr, DecidableEq

inductive DType where
  | dtBool
  | dtInt
  | dtFloat
  | dtStr
  | dtChoice
  | dtFile
deriving Repr, DecidableEq

/-- Does a value match a declared dtype?  Choices and file paths are
string-valued. -/
def wellTyped : DType → Value → Bool
  | .dtBool, .vBool _ => true
  | .dtInt, .vInt _ => true
  | .dtFloat, .vFloat _ => true
  | .dtStr, .vStr _ => true
  | .dtChoice, .vStr _ => true
  | .dtFile, .vStr _ => true
  | _, _ => false

/-! Decimal rendering of integers, used for the canonical INI string form. -/

/-- The decimal digit character for `d < 10`. -/
def digitChar (d : Nat) : Char :=
  ['0', '1', '2', '3', '4', '5', '6', '7', '8', '9'].getD d '9'

/-- Inverse of `digitChar` on decimal digit characters. -/
def charDigit (c : Char) : Nat :=
  if c = '0' then 0 else if c = '1' then 1 else if c = '2' then 2
  else if c = '3' then 3 else if c = '4' then 4 else if c = '5' then 5
  else if c = '6' then 6 else if c = '7' then 7 else if c = '8' then 8 else 9

/-- Decimal digit characters of a natural number, most significant first. -/
def natToChars (n : Nat) : List Char :=
  if n = 0 then ['0'] else ((Nat.digits 10 n).map digitChar).reverse

/-- Reads decimal digit characters (most significant first) back to a natural. -/
def charsToNat (l : List Char) : Nat :=
  Nat.ofDigits 10 ((l.map charDigit).reverse)

/-- Decimal characters of an integer, with a leading minus sign if negative. -/
def intToChars : Int → List Char
  | .ofNat m => natToChars m
  | .negSucc m => '-' :: natToChars (m + 1)

/-- Reads decimal characters (optionally sign-prefixed) back to an integer. -/
def charsToInt (l : List Char) : Int :=
  match l with
  | '-' :: rest => -(charsToNat rest : Int)
  | _ => (charsToNat l : Int)

/-- Modelled from the spec: `LoggedQuantity.ini_string_value` (class
LoggedQuantity is not under src/) returns the canonical string form of the
Setting's current value, the exact form that a write accepts back for
round-tripping. -/
def iniStringValue : Value → String
  | .vBool b => if b then "True" else "False"
  | .vInt n => String.mk (intToChars n)
  | .vFloat s => s
  | .vStr s => s

/-- Modelled from the spec: the dtype-directed parse of a canonical INI
string back into a value (the coercion applied when a loaded string is
written into a typed Setting; the coercion code is not under src/). -/
def parseIniString : DType → String → Value
  | .dtBool, s => .vBool (s == "True")
  | .dtInt, s => .vInt (charsToInt s.data)
  | .dtFloat, s => .vFloat s
  | .dtStr, s => .vStr s
  | .dtChoice, s => .vStr s
  | .dtFile, s => .vStr s

/-! ### Logged Quantities

Modelled from the spec: a Logged Quantity (Setting) is a named, typed,
observable value cell with a mutable protected flag, a proposal history
mapping provenance labels to proposed values, and (for enumerated
settings) a choice list.  The `LoggedQuantity` class itself is not under
src/; only its uses in base_app.py and data_browser.py are. -/

structure LoggedQuantity where
  name : String
  path : String
  dtype : DType
  val : Value
  protected_flag : Bool
  proposed_values : List (String × Value)
  choices : List String
deriving Repr, DecidableEq

/-- Modelled from the spec: `LoggedQuantity.update_value` (not under src/)
unconditionally sets the Setting's current value. -/
def LoggedQuantity.update_value (lq : LoggedQuantity) (value : Value) : LoggedQuantity :=
  { lq with val := value }

/-- Modelled from the spec: `LoggedQuantity.propose_value` (not under src/)
attaches `(label, value)` to the Setting's proposal history without
changing its current value. -/
def LoggedQuantity.propose_value (lq : LoggedQuantity) (name : String) (value : Value) :
    LoggedQuantity :=
  { lq with proposed_values := dictSet lq.proposed_values name value }

/-- Modelled from the spec: `LoggedQuantity.change_choice_list` (not under
src/) replaces the enumerated choice list of the Setting. -/
def LoggedQuantity.change_choice_list (lq : LoggedQuantity) (cs : List String) :
    LoggedQuantity :=
  { lq with choices := cs }

/-- `LoggedQuantity.ini_string_value` applied to the current value. -/
def LoggedQuantity.ini_string_value (lq : LoggedQuantity) : String :=
  iniStringValue lq.val

/-! ### BaseApp (src/base_app/base_app.py) -/

/-- `WRITE_RES` from base_app.py: the result codes of a settings write. -/
inductive WRITE_RES where
  | SUCCESS
  | MISSING
  | PROTECTED
deriving Repr, DecidableEq

/-- The `BaseApp` state relevant to the settings path registry:
`self._setting_paths`, the flat mapping from path string to Logged
Quantity. -/
structure BaseApp where
  setting_paths : List (String × LoggedQuantity)
deriving Repr, DecidableEq

/-- `BaseApp.add_setting_path`: `self._setting_paths[lq.path] = lq`. -/
def BaseApp.add_setting_path (app : BaseApp) (lq : LoggedQuantity) : BaseApp :=
  { app with setting_paths := dictSet app.setting_paths lq.path lq }

/-- `BaseApp.remove_setting_path`: `self._setting_paths.pop(lq.path, None)`. -/
def BaseApp.remove_setting_path (app : BaseApp) (lq : LoggedQuantity) : BaseApp :=
  { app with setting_paths := dictPop app.setting_paths lq.path }

/-- `BaseApp.get_lq`: `self._setting_paths.get(path, None)`. -/
def BaseApp.get_lq (app : BaseApp) (path : String) : Option LoggedQuantity :=
  dictGet app.setting_paths path

/-- `BaseApp.write_setting`: update unconditionally, `MISSING` if the path
does not resolve.  The protected flag is never consulted. -/
def BaseApp.write_setting (app : BaseApp) (path : String) (value : Value) :
    WRITE_RES × BaseApp :=
  match app.get_lq path with
  | none => (.MISSING, app)
  | some lq =>
      (.SUCCESS,
       { app with setting_paths := dictSet app.setting_paths path (lq.update_value value) })

/-- `BaseApp.write_setting_safe`: as `write_setting`, but reports
`PROTECTED` without mutating when the protected flag is set. -/
def BaseApp.write_setting_safe (app : BaseApp) (path : String) (value : Value) :
    WRITE_RES × BaseApp :=
  match app.get_lq path with
  | none => (.MISSING, app)
  | some lq =>
      if lq.protected_flag then (.PROTECTED, app)
      else
        (.SUCCESS,
         { app with setting_paths := dictSet app.setting_paths path (lq.update_value value) })

/-- `BaseApp.write_settings_safe`: applies `write_setting_safe` to each
entry of the mapping in order and collects `report[path] = result`. -/
def BaseApp.write_settings_safe (app : BaseApp) (settings : List (String × Value)) :
    List (String × WRITE_RES) × BaseApp :=
  match settings with
  | [] => ([], app)
  | (path, value) :: rest =>
      let r := app.write_setting_safe path value
      let rr := r.2.write_settings_safe rest
      ((path, r.1) :: rr.1, rr.2)

/-- `BaseApp.read_setting`: `lq = self.get_lq(path)` followed by an
attribute access on `lq`; when the path has no registered Setting, `lq` is
`None` and the attribute access raises `AttributeError`, modelled as
`Except.error`. -/
def BaseApp.read_setting (app : BaseApp) (path : String) (ini_string_value : Bool) :
    Except String Value :=
  match app.get_lq path with
  | none => .error "AttributeError"
  | some lq =>
      if ini_string_value then .ok (.vStr lq.ini_string_value) else .ok lq.val

/-- The dict comprehension `{p: self.read_setting(p, isv) for p in paths}`:
the first raising path aborts the whole comprehension. -/
def readLoop (app : BaseApp) (ini_string_value : Bool) :
    List String → Except String (List (String × Value))
  | [] => .ok []
  | p :: ps =>
      match app.read_setting p ini_string_value with
      | .error e => .error e
      | .ok v =>
          match readLoop app ini_string_value ps with
          | .error e => .error e
          | .ok l => .ok ((p, v) :: l)

/-- `BaseApp.read_settings`: `paths = self._setting_paths if paths is None
else paths` (iterating a dict yields its keys), then the comprehension. -/
def BaseApp.read_settings (app : BaseApp) (paths : Option (List String))
    (ini_string_value : Bool) : Except String (List (String × Value)) :=
  let ps := match paths with
    | none => dictKeys app.setting_paths
    | some ps => ps
  readLoop app ini_string_value ps

/-- `BaseApp.propose_settings_values`: for each entry, skip silently if the
path does not resolve, otherwise attach the proposal to the Setting. -/
def BaseApp.propose_settings_values (app : BaseApp) (name : String)
    (settings : List (String × Value)) : BaseApp :=
  match settings with
  | [] => app
  | (path, val) :: rest =>
      let app' := match app.get_lq path with
        | none => app
        | some lq =>
            { app with setting_paths := dictSet app.setting_paths path (lq.propose_value name val) }
      app'.propose_settings_values name rest

/-- Python's `str.split("/")`, on character lists: splits at every slash
and never returns the empty list. -/
def splitSlashChars : List Char → List (List Char)
  | [] => [[]]
  | c :: rest =>
      match splitSlashChars rest with
      | [] => [[]]
      | cur :: parts => if c = '/' then [] :: cur :: parts else (c :: cur) :: parts

/-- Python's `path.split("/")`. -/
def splitSlash (s : String) : List String :=
  (splitSlashChars s.data).map String.mk

/-- `Path(fname).name`: the final path component of a file name. -/
def pathName (fname : String) : String :=
  (splitSlash fname).getLastD fname

/-- Modelled from the spec: `ini_io.save_settings` (module ini_io is not
under src/) serializes a path→string mapping to an INI file; the file is
identified with the mapping it stores, which the spec requires to be
round-trip exact. -/
def save_settings (settings : List (String × Value)) : List (String × Value) :=
  settings

/-- Modelled from the spec: `ini_io.load_settings` (module ini_io is not
under src/) parses an INI file back into the exact path→string mapping
that produced it. -/
def load_settings (file : List (String × Value)) : List (String × Value) :=
  file

/-- `BaseApp.settings_save_ini`: reads every registered path in canonical
string form, saves the mapping, and proposes the saved values under the
file's name. -/
def BaseApp.settings_save_ini (app : BaseApp) (fname : String) :
    Except String (List (String × Value) × BaseApp) :=
  match app.read_settings none true with
  | .error e => .error e
  | .ok settings =>
      .ok (save_settings settings, app.propose_settings_values (pathName fname) settings)

/-- `BaseApp.settings_load_ini`: loads the mapping from the file, applies
it via `write_settings_safe`, then proposes every loaded value under the
file's name, and returns the loaded mapping. -/
def BaseApp.settings_load_ini (app : BaseApp) (fname : String)
    (file : List (String × Value)) : List (String × Value) × BaseApp :=
  let settings := load_settings file
  let app1 := (app.write_settings_safe settings).2
  let app2 := app1.propose_settings_values (pathName fname) settings
  (settings, app2)

/-! ### DataBrowser (src/data_browser/data_browser.py) -/

/-- A DataBrowser view: a named, lazily initialized UI unit with its own
settings collection (`name → LoggedQuantity`), a `view_loaded` flag and a
file-support predicate.  `view.setup()` builds the view's UI; it is
modelled by incrementing `setup_count`, and `ui` stands for the widget it
builds. -/
structure DataBrowserView where
  name : String
  settings : List (String × LoggedQuantity)
  view_loaded : Bool
  setup_count : Nat
  ui : Nat
  is_file_supported : String → Bool

/-- A DataBrowser plugin: a named unit with its own settings collection. -/
structure Plugin where
  name : String
  settings : List (String × LoggedQuantity)

/-- The `DataBrowser` state relevant to the claims: the inherited path
registry, the app-level settings collection `self.settings`, the `views`
and `plugins` dicts, the view stack with its name→index dict, and the
current view (by name, with the stack's current index). -/
structure DataBrowser extends BaseApp where
  settings : List (String × LoggedQuantity)
  views : List (String × DataBrowserView)
  plugins : List (String × Plugin)
  view_stack : List Nat
  view_stack_indices : List (String × Nat)
  current_view : String
  current_index : Option Nat

/-- `BaseApp.add_lq_collection_to_settings_path` as used by DataBrowser:
registers every Logged Quantity of a collection in the path registry (the
signal connections only keep the registry in sync later). -/
def DataBrowser.add_lq_collection_to_settings_path (db : DataBrowser)
    (coll : List (String × LoggedQuantity)) : DataBrowser :=
  { db with toBaseApp := coll.foldl (fun b e => b.add_setting_path e.2) db.toBaseApp }

/-- `self.settings.get_lq("view_name").change_choice_list(list(self.views.keys()))`
from `DataBrowser.add_view`: updates the choice list of the `view_name`
Setting (held both in the collection and, by aliasing, in the registry
under its path).  In the source the Setting always exists. -/
def DataBrowser.update_view_name_choices (db : DataBrowser) : DataBrowser :=
  match dictGet db.settings "view_name" with
  | none => db
  | some lq =>
      let lq' := lq.change_choice_list (dictKeys db.views)
      { db with
          settings := dictSet db.settings "view_name" lq',
          toBaseApp :=
            { setting_paths := dictSet db.toBaseApp.setting_paths lq.path lq' } }

/-- `DataBrowser.add_view`: `self.views[new_view.name] = new_view`, then
registers the view's settings and refreshes the `view_name` choices. -/
def DataBrowser.add_view (db : DataBrowser) (new_view : DataBrowserView) : DataBrowser :=
  let db1 := { db with views := dictSet db.views new_view.name new_view }
  let db2 := db1.add_lq_collection_to_settings_path new_view.settings
  db2.update_view_name_choices

/-- `DataBrowser.load_view`: deprecated alias of `add_view`. -/
def DataBrowser.load_view (db : DataBrowser) (new_view : DataBrowserView) : DataBrowser :=
  db.add_view new_view

/-- `if parts[-1] in settings: return settings.get_lq(parts[-1])` — the
tail of `DataBrowser.get_lq`; falling through returns `None`. -/
def collectionLookup (coll : List (String × LoggedQuantity)) (parts : List String) :
    Option LoggedQuantity :=
  if dictMem coll (parts.getLastD "") then dictGet coll (parts.getLastD "") else none

/-- The body of `DataBrowser.get_lq` over the already-split `parts`
(`parts[0]` is `headD ""`; `parts[1]` raises `IndexError` when absent;
`parts[-1]` is `getLastD ""`; `splitSlash` never produces `[]`). -/
def DataBrowser.get_lq_parts (db : DataBrowser) (parts : List String) :
    Except String (Option LoggedQuantity × DataBrowser) :=
  if parts.headD "" = "view" then
    match parts.get? 1 with
    | none => .error "IndexError"
    | some second =>
        match dictGet db.views second with
        | none => .ok (collectionLookup db.settings parts, db)
        | some view => .ok (collectionLookup view.settings parts, db.load_view view)
  else if parts.headD "" = "plugin" then
    match parts.get? 1 with
    | none => .error "IndexError"
    | some second =>
        match dictGet db.plugins second with
        | none => .ok (collectionLookup db.settings parts, db)
        | some plugin => .ok (collectionLookup plugin.settings parts, db)
  else .ok (collectionLookup db.settings parts, db)

/-- `DataBrowser.get_lq`: `parts = path.split("/")`, then resolves the last
segment against the collection selected by the first two segments, lazily
loading a named view. -/
def DataBrowser.get_lq (db : DataBrowser) (path : String) :
    Except String (Option LoggedQuantity × DataBrowser) :=
  db.get_lq_parts (splitSlash path)

/-- The loop of `DataBrowser.auto_select_view`: first view in the given
order whose support predicate accepts the file name. -/
def firstSupported (fname : String) : List (String × DataBrowserView) → Option String
  | [] => none
  | (view_name, view) :: rest =>
      if view.is_file_supported fname then some view_name else firstSupported fname rest

/-- `DataBrowser.auto_select_view`: iterates `list(self.views.items())[::-1]`
and returns the first supporting view's name, falling back to
`"file_info"`. -/
def DataBrowser.auto_select_view (db : DataBrowser) (fname : String) : String :=
  (firstSupported fname db.views.reverse).getD "file_info"

/-- `DataBrowser.setup_view`: if the view is not yet loaded, run its setup,
append a widget to the view stack recording its index under the view's
name, and mark it loaded; in every case make it current and switch the
stack's current index to the one recorded for it. -/
def DataBrowser.setup_view (db : DataBrowser) (name : String) : DataBrowser :=
  match dictGet db.views name with
  | none => db
  | some view =>
      let db1 :=
        if view.view_loaded then db
        else
          let view' := { view with setup_count := view.setup_count + 1, view_loaded := true }
          let index := db.view_stack.length
          let cur_ui := ((dictGet db.views db.current_view).map (·.ui)).getD 0
          { db with
              views := dictSet db.views name view',
              view_stack := db.view_stack ++ [cur_ui],
              view_stack_indices := dictSet db.view_stack_indices name index }
      { db1 with
          current_view := name,
          current_index := dictGet db1.view_stack_indices name }

/-! ### Concrete fixtures used by the claim witnesses and counterexamples -/

/-- A Logged Quantity with empty proposal history and empty choice list. -/
def mkLq (name path : String) (d : DType) (v : Value) (prot : Bool) : LoggedQuantity :=
  ⟨name, path, d, v, prot, [], []⟩

/-- A protected setting valued 10. -/
def exLqX : LoggedQuantity := mkLq "x" "app/x" .dtInt (.vInt 10) true

/-- An app with one protected and one writable setting. -/
def exApp1 : BaseApp :=
  ⟨[("app/x", exLqX), ("app/y", mkLq "y" "app/y" .dtInt (.vInt 0) false)]⟩

/-- An app with a writable `p2` and a protected `p3` (and no `p1`). -/
def exApp3 : BaseApp :=
  ⟨[("p2", mkLq "p2" "p2" .dtInt (.vInt 0) false),
    ("p3", mkLq "p3" "p3" .dtInt (.vInt 30) true)]⟩

/-- The bulk-write input of the spec's partial-success example. -/
def exM3 : List (String × Value) :=
  [("p1", .vInt 1), ("p2", .vInt 2), ("p3", .vInt 3)]

/-- An app with a single registered setting. -/
def exApp4 : BaseApp :=
  ⟨[("app/a", mkLq "a" "app/a" .dtInt (.vInt 7) false)]⟩

/-- An app holding one protected setting valued 10, as in the spec's
proposal-provenance example. -/
def exApp7 : BaseApp :=
  ⟨[("app/p", mkLq "p" "app/p" .dtInt (.vInt 10) true)]⟩

/-- An app with one integer setting for the INI round-trip witness. -/
def exApp8 : BaseApp :=
  ⟨[("app/n", mkLq "n" "app/n" .dtInt (.vInt (-42)) false)]⟩

/-- An empty data browser (no views, no plugins, one app-level setting). -/
def exDb2 : DataBrowser :=
  { toBaseApp := ⟨[("app/x", mkLq "x" "app/x" .dtInt (.vInt 1) false)]⟩,
    settings := [("x", mkLq "x" "app/x" .dtInt (.vInt 1) false)],
    views := [], plugins := [],
    view_stack := [], view_stack_indices := [],
    current_view := "file_info", current_index := none }

/-- The app-level setting named `b` of `exDb5`. -/
def exLqB : LoggedQuantity := mkLq "b" "app/b" .dtInt (.vInt 5) false

/-- A data browser whose root collection has one member `b`; no views or
plugins. -/
def exDb5 : DataBrowser :=
  { toBaseApp := ⟨[("app/b", exLqB)]⟩,
    settings := [("b", exLqB)],
    views := [], plugins := [],
    view_stack := [], view_stack_indices := [],
    current_view := "file_info", current_index := none }

/-- A view named `v1` holding one setting `x`. -/
def exView5 : DataBrowserView :=
  ⟨"v1", [("x", mkLq "x" "view/v1/x" .dtInt (.vInt 3) false)], false, 0, 11,
   fun _ => false⟩

/-- A data browser with the single view `v1`. -/
def exDb5w : DataBrowser :=
  { toBaseApp := ⟨[]⟩,
    settings := [("view_name", mkLq "view_name" "app/view_name" .dtStr (.vStr "file_info") false)],
    views := [("v1", exView5)], plugins := [],
    view_stack := [], view_stack_indices := [],
    current_view := "file_info", current_index := none }

/-- View `A` of the auto-select example: supports nothing. -/
def exViewA : DataBrowserView := ⟨"A", [], true, 1, 1, fun _ => false⟩

/-- View `B` of the auto-select example: supports `x.dat`. -/
def exViewB : DataBrowserView := ⟨"B", [], true, 1, 2, fun f => f == "x.dat"⟩

/-- View `C` of the auto-select example: supports `x.dat`. -/
def exViewC : DataBrowserView := ⟨"C", [], true, 1, 3, fun f => f == "x.dat"⟩

/-- A data browser with views registered in the order `[A, B, C]`. -/
def exDb6 : DataBrowser :=
  { toBaseApp := ⟨[]⟩, settings := [],
    views := [("A", exViewA), ("B", exViewB), ("C", exViewC)], plugins := [],
    view_stack := [], view_stack_indices := [],
    current_view := "A", current_index := none }

/-- An unloaded view for the lazy-setup witness. -/
def exView10 : DataBrowserView := ⟨"v", [], false, 0, 21, fun _ => false⟩

/-- A data browser holding the unloaded view `v` and a loaded current view. -/
def exDb10 : DataBrowser :=
  { toBaseApp := ⟨[]⟩, settings := [],
    views := [("file_info", ⟨"file_info", [], true, 1, 20, fun _ => true⟩),
              ("v", exView10)],
    plugins := [],
    view_stack := [20], view_stack_indices := [("file_info", 0)],
    current_view := "file_info", current_index := some 0 }

theorem charDigit_digitChar {d : Nat} (h : d < 10) : charDigit (digitChar d) = d := by
  interval_cases d <;> rfl

theorem digitChar_ne_minus (d : Nat) : digitChar d ≠ '-' := by
  rcases lt_or_ge d 10 with h | h
  · interval_cases d <;> decide
  · unfold digitChar
    rw [List.getD_eq_default]
    · decide
    · simpa using h

theorem charsToNat_natToChars (n : Nat) : charsToNat (natToChars n) = n := by
  unfold natToChars
  by_cases h : n = 0
  · subst h; rfl
  · rw [if_neg h]
    unfold charsToNat
    rw [List.map_reverse, List.reverse_reverse, List.map_map]
    have hmap : (Nat.digits 10 n).map (charDigit ∘ digitChar) = Nat.digits 10 n := by
      trans List.map id (Nat.digits 10 n)
      · apply List.map_congr_left
        intro d hd
        exact charDigit_digitChar (Nat.digits_lt_base (by norm_num) hd)
      · exact List.map_id _
    rw [hmap, Nat.ofDigits_digits]

theorem natToChars_ne_minus_cons (n : Nat) (rest : List Char) :
    natToChars n ≠ '-' :: rest := by
  unfold natToChars
  by_cases h : n = 0
  · simp [h]
  · rw [if_neg h]
    intro heq
    have hmem : '-' ∈ ((Nat.digits 10 n).map digitChar).reverse := by
      rw [heq]; exact List.mem_cons_self _ _
    rw [List.mem_reverse, List.mem_map] at hmem
    obtain ⟨d, _, hd⟩ := hmem
    exact digitChar_ne_minus d hd

theorem charsToInt_intToChars (n : Int) : charsToInt (intToChars n) = n := by
  cases n with
  | ofNat m =>
    unfold intToChars charsToInt
    split
    · rename_i rest heq
      exact absurd heq (natToChars_ne_minus_cons m rest)
    · rw [charsToNat_natToChars]
      rfl
  | negSucc m =>
    show charsToInt ('-' :: natToChars (m + 1)) = Int.negSucc m
    have h1 : charsToInt ('-' :: natToChars (m + 1)) =
        -(charsToNat (natToChars (m + 1)) : Int) := rfl
    rw [h1, charsToNat_natToChars]
    simp [Int.negSucc_eq]

theorem parse_iniStringValue {d : DType} {v : Value} (h : wellTyped d v = true) :
    parseIniString d (iniStringValue v) = v := by
  cases d <;> cases v <;> simp_all [wellTyped, parseIniString, iniStringValue]
  · rename_i b; cases b <;> decide
  · rename_i n
    show charsToInt (String.mk (intToChars n)).data = n
    rw [show (String.mk (intToChars n)).data = intToChars n from rfl]
    exact charsToInt_intToChars n

/-! ### Dict lemmas -/

theorem dictGet_set_self {α : Type} (d : List (String × α)) (k : String) (v : α) :
    dictGet (dictSet d k v) k = some v := by
  induction d with
  | nil => simp [dictSet, dictGet]
  | cons e rest ih =>
      obtain ⟨k', v'⟩ := e
      by_cases h : k' = k
      · simp [dictSet, dictGet, h]
      · simp [dictSet, dictGet, h, ih]

theorem dictGet_set_ne {α : Type} (d : List (String × α)) (k k' : String) (v : α)
    (h : k ≠ k') : dictGet (dictSet d k v) k' = dictGet d k' := by
  induction d with
  | nil => simp [dictSet, dictGet, h]
  | cons e rest ih =>
      obtain ⟨q, w⟩ := e
      simp only [dictSet]
      by_cases hq : q = k
      · subst hq
        rw [if_pos rfl]
        simp only [dictGet]
        rw [if_neg h, if_neg h]
      · rw [if_neg hq]
        simp only [dictGet]
        by_cases hq' : q = k'
        · rw [if_pos hq', if_pos hq']
        · rw [if_neg hq', if_neg hq', ih]

theorem dictGet_none_iff {α : Type} (d : List (String × α)) (k : String) :
    dictGet d k = none ↔ k ∉ dictKeys d := by
  induction d with
  | nil => simp [dictGet, dictKeys]
  | cons e rest ih =>
      obtain ⟨q, w⟩ := e
      simp only [dictGet, dictKeys, List.map_cons, List.mem_cons]
      by_cases h : q = k
      · subst h
        simp
      · rw [if_neg h, ih]
        have hkq : ¬k = q := fun hh => h hh.symm
        unfold dictKeys
        constructor
        · intro hk hor
          rcases hor with hor | hor
          · exact hkq hor
          · exact hk hor
        · intro hk hmem
          exact hk (Or.inr hmem)

theorem dictGet_isSome_of_mem_keys {α : Type} {d : List (String × α)} {k : String}
    (h : k ∈ dictKeys d) : (dictGet d k).isSome = true := by
  rcases hv : dictGet d k with _ | v
  · exact absurd ((dictGet_none_iff d k).mp hv) (by simpa using h)
  · rfl

theorem dictGet_of_mem_nodup {α : Type} {d : List (String × α)} {k : String} {v : α}
    (hnd : (dictKeys d).Nodup) (hmem : (k, v) ∈ d) : dictGet d k = some v := by
  induction d with
  | nil => cases hmem
  | cons e rest ih =>
      obtain ⟨q, w⟩ := e
      rw [dictKeys, List.map_cons, List.nodup_cons] at hnd
      rcases List.mem_cons.mp hmem with heq | hmem'
      · cases heq
        simp [dictGet]
      · have hk : q ≠ k := by
          intro hqk
          subst hqk
          exact hnd.1 (List.mem_map.mpr ⟨(q, v), hmem', rfl⟩)
        simp [dictGet, hk]
        exact ih hnd.2 hmem'

theorem mem_keys_dictSet {α : Type} (d : List (String × α)) (k k' : String) (v : α)
    (h : k' ∈ dictKeys (dictSet d k v)) : k' ∈ dictKeys d ∨ k' = k := by
  induction d with
  | nil =>
      simp only [dictSet, dictKeys, List.map_cons, List.map_nil, List.mem_singleton] at h
      exact Or.inr h
  | cons e rest ih =>
      obtain ⟨q, w⟩ := e
      simp only [dictSet] at h
      by_cases hq : q = k
      · subst hq
        rw [if_pos rfl] at h
        simp only [dictKeys, List.map_cons, List.mem_cons] at h ⊢
        rcases h with h | h
        · exact Or.inr h
        · exact Or.inl (Or.inr h)
      · rw [if_neg hq] at h
        simp only [dictKeys, List.map_cons, List.mem_cons] at h ⊢
        rcases h with h | h
        · exact Or.inl (Or.inl h)
        · rcases ih h with h' | h'
          · exact Or.inl (Or.inr h')
          · exact Or.inr h'

theorem dictKeys_set_nodup {α : Type} (d : List (String × α)) (k : String) (v : α)
    (hnd : (dictKeys d).Nodup) : (dictKeys (dictSet d k v)).Nodup := by
  induction d with
  | nil => simp [dictSet, dictKeys]
  | cons e rest ih =>
      obtain ⟨q, w⟩ := e
      rw [dictKeys, List.map_cons, List.nodup_cons] at hnd
      simp only [dictSet]
      by_cases hq : q = k
      · subst hq
        rw [if_pos rfl]
        simp only [dictKeys, List.map_cons, List.nodup_cons]
        exact ⟨by simpa [dictKeys] using hnd.1, hnd.2⟩
      · rw [if_neg hq]
        simp only [dictKeys, List.map_cons, List.nodup_cons]
        refine ⟨?_, ih hnd.2⟩
        intro hmem
        rcases mem_keys_dictSet rest k q v hmem with h' | h'
        · exact (by simpa [dictKeys] using hnd.1 : q ∉ dictKeys rest) h'
        · exact hq h'

theorem dictPop_sublist {α : Type} (d : List (String × α)) (k : String) :
    (dictPop d k).Sublist d := by
  induction d with
  | nil => simp [dictPop]
  | cons e rest ih =>
      obtain ⟨q, w⟩ := e
      simp only [dictPop]
      by_cases hq : q = k
      · rw [if_pos hq]
        exact List.sublist_cons_self _ _
      · rw [if_neg hq]
        exact List.Sublist.cons₂ _ ih

theorem dictPop_of_not_mem {α : Type} (d : List (String × α)) (k : String)
    (h : dictGet d k = none) : dictPop d k = d := by
  induction d with
  | nil => rfl
  | cons e rest ih =>
      obtain ⟨q, w⟩ := e
      by_cases hq : q = k
      · simp [dictGet, hq] at h
      · simp only [dictGet, hq, if_false] at h
        simp [dictPop, hq, ih h]

/-! ### Claim C9: registry last-register-wins, no-op unregister -/

/-- Claim C9: the path registry maps at most one Setting per path
(registration keeps the key list duplicate-free); registering a second
Setting at an already-registered path leaves only the second resolvable by
that path (last-register-wins); and unregistering a path that is not
registered is a no-op. -/
theorem claim9_registry_last_wins (app : BaseApp) (lq1 lq2 lq : LoggedQuantity)
    (hpath : lq1.path = lq2.path) :
    ((app.add_setting_path lq1).add_setting_path lq2).get_lq lq1.path = some lq2
    ∧ (app.get_lq lq.path = none → app.remove_setting_path lq = app)
    ∧ ((dictKeys app.setting_paths).Nodup →
        (dictKeys (app.add_setting_path lq).setting_paths).Nodup
        ∧ (dictKeys (app.remove_setting_path lq).setting_paths).Nodup) := by
  refine ⟨?_, ?_, ?_⟩
  · rw [hpath]
    exact dictGet_set_self _ _ _
  · intro hnone
    show BaseApp.mk (dictPop app.setting_paths lq.path) = app
    rw [dictPop_of_not_mem _ _ hnone]
  · intro hnd
    exact ⟨dictKeys_set_nodup _ _ _ hnd,
           ((dictPop_sublist app.setting_paths lq.path).map _).nodup hnd⟩

/-- Witness for C9 at a concrete registry. -/
theorem claim9_witness :
    (mkLq "x" "app/x" .dtInt (.vInt 1) false).path = (mkLq "x" "app/x" .dtInt (.vInt 2) true).path
    ∧ ((exApp4.add_setting_path (mkLq "x" "app/x" .dtInt (.vInt 1) false)).add_setting_path
        (mkLq "x" "app/x" .dtInt (.vInt 2) true)).get_lq
        (mkLq "x" "app/x" .dtInt (.vInt 1) false).path
        = some (mkLq "x" "app/x" .dtInt (.vInt 2) true) :=
  ⟨by decide,
   (claim9_registry_last_wins exApp4 (mkLq "x" "app/x" .dtInt (.vInt 1) false)
      (mkLq "x" "app/x" .dtInt (.vInt 2) true) (mkLq "x" "app/x" .dtInt (.vInt 1) false)
      (by decide)).1⟩

/-! ### Claim C1: protected-write invariant -/

/-- Claim C1: on a path resolving to a protected Setting,
`write_setting_safe` returns `PROTECTED` and leaves the whole state (hence
the Setting's value) unchanged; `write_setting` on any resolving path
returns `SUCCESS` and updates the value without consulting the protected
flag; on a non-resolving path both return `MISSING` and change nothing. -/
theorem claim1_protected_write_invariant (app : BaseApp) (path : String) (value : Value) :
    (app.get_lq path = none →
       app.write_setting path value = (.MISSING, app)
       ∧ app.write_setting_safe path value = (.MISSING, app))
    ∧ (∀ lq, app.get_lq path = some lq → lq.protected_flag = true →
       app.write_setting_safe path value = (.PROTECTED, app))
    ∧ (∀ lq, app.get_lq path = some lq →
       (app.write_setting path value).1 = .SUCCESS
       ∧ (app.write_setting path value).2.get_lq path = some (lq.update_value value)) := by
  refine ⟨?_, ?_, ?_⟩
  · intro hnone
    rw [BaseApp.write_setting, BaseApp.write_setting_safe, hnone]
    exact ⟨rfl, rfl⟩
  · intro lq hsome hprot
    rw [BaseApp.write_setting_safe, hsome]
    simp [hprot]
  · intro lq hsome
    rw [BaseApp.write_setting, hsome]
    exact ⟨rfl, dictGet_set_self _ _ _⟩

/-- Witness for C1: in `exApp1`, `app/x` is protected (safe write refused,
state untouched) and `app/y` resolves (plain write succeeds and updates). -/
theorem claim1_witness :
    exApp1.get_lq "app/x" = some exLqX
    ∧ exLqX.protected_flag = true
    ∧ exApp1.write_setting_safe "app/x" (Value.vInt 99) = (.PROTECTED, exApp1)
    ∧ (exApp1.write_setting "app/x" (Value.vInt 99)).2.get_lq "app/x"
        = some (exLqX.update_value (Value.vInt 99)) :=
  ⟨by decide, by decide,
   (claim1_protected_write_invariant exApp1 "app/x" (Value.vInt 99)).2.1 exLqX
     (by decide) (by decide),
   ((claim1_protected_write_invariant exApp1 "app/x" (Value.vInt 99)).2.2 exLqX
     (by decide)).2⟩

/-! ### Single-write lemmas -/

theorem write_setting_safe_fst (app : BaseApp) (p : String) (v : Value) :
    (app.write_setting_safe p v).1 =
      match app.get_lq p with
      | none => .MISSING
      | some lq => if lq.protected_flag then .PROTECTED else .SUCCESS := by
  rcases h : app.get_lq p with _ | lq
  · simp [BaseApp.write_setting_safe, h]
  · by_cases hp : lq.protected_flag <;> simp [BaseApp.write_setting_safe, h, hp]

theorem write_setting_safe_get_self (app : BaseApp) (p : String) (v : Value) :
    (app.write_setting_safe p v).2.get_lq p =
      match app.get_lq p with
      | none => none
      | some lq => if lq.protected_flag then some lq else some (lq.update_value v) := by
  have h' : ∀ x, app.get_lq p = x → dictGet app.setting_paths p = x := fun _ hx => hx
  rcases h : app.get_lq p with _ | lq
  · simp [BaseApp.write_setting_safe, BaseApp.get_lq, h' _ h]
  · by_cases hp : lq.protected_flag
    · simp [BaseApp.write_setting_safe, BaseApp.get_lq, h' _ h, hp]
    · simp only [BaseApp.write_setting_safe, BaseApp.get_lq, h' _ h, hp, if_false,
        Bool.false_eq_true]
      exact dictGet_set_self _ _ _

theorem write_setting_safe_get_ne (app : BaseApp) (p : String) (v : Value) (q : String)
    (h : p ≠ q) : (app.write_setting_safe p v).2.get_lq q = app.get_lq q := by
  have h' : ∀ x, app.get_lq p = x → dictGet app.setting_paths p = x := fun _ hx => hx
  rcases hg : app.get_lq p with _ | lq
  · simp [BaseApp.write_setting_safe, BaseApp.get_lq, h' _ hg]
  · by_cases hp : lq.protected_flag
    · simp [BaseApp.write_setting_safe, BaseApp.get_lq, h' _ hg, hp]
    · simp only [BaseApp.write_setting_safe, BaseApp.get_lq, h' _ hg, hp, if_false,
        Bool.false_eq_true]
      exact dictGet_set_ne _ _ _ _ h

theorem write_setting_safe_congr (a b : BaseApp) (p : String) (v : Value)
    (h : a.get_lq p = b.get_lq p) :
    (a.write_setting_safe p v).1 = (b.write_setting_safe p v).1
    ∧ (a.write_setting_safe p v).2.get_lq p = (b.write_setting_safe p v).2.get_lq p := by
  constructor
  · rw [write_setting_safe_fst, write_setting_safe_fst, h]
  · rw [write_setting_safe_get_self, write_setting_safe_get_self, h]

theorem write_settings_safe_cons (app : BaseApp) (p : String) (v : Value)
    (rest : List (String × Value)) :
    app.write_settings_safe ((p, v) :: rest) =
      ((p, (app.write_setting_safe p v).1) ::
          ((app.write_setting_safe p v).2.write_settings_safe rest).1,
       ((app.write_setting_safe p v).2.write_settings_safe rest).2) := rfl

/-! ### Claim C3: bulk partial success -/

/-- Claim C3: `write_settings_safe` applies each entry independently: the
report maps every input path to the result that a lone `write_setting_safe`
of that entry would produce, the final state agrees at every input path
with that lone write, and paths outside the input are untouched. -/
theorem claim3_bulk_partial_success (app : BaseApp) (settings : List (String × Value))
    (hnd : (dictKeys settings).Nodup) :
    (∀ p v, (p, v) ∈ settings →
        dictGet (app.write_settings_safe settings).1 p
          = some (app.write_setting_safe p v).1)
    ∧ (∀ p v, (p, v) ∈ settings →
        (app.write_settings_safe settings).2.get_lq p
          = (app.write_setting_safe p v).2.get_lq p)
    ∧ (∀ p, p ∉ dictKeys settings →
        (app.write_settings_safe settings).2.get_lq p = app.get_lq p) := by
  revert hnd
  induction settings generalizing app with
  | nil =>
      intro _
      exact ⟨fun p v h => absurd h (List.not_mem_nil _),
             fun p v h => absurd h (List.not_mem_nil _),
             fun p _ => rfl⟩
  | cons e rest ih =>
      intro hnd
      obtain ⟨q, w⟩ := e
      rw [dictKeys, List.map_cons, List.nodup_cons] at hnd
      have hq_not : q ∉ dictKeys rest := by simpa [dictKeys] using hnd.1
      obtain ⟨ih1, ih2, ih3⟩ := ih ((app.write_setting_safe q w).2) hnd.2
      refine ⟨?_, ?_, ?_⟩
      · intro p v hmem
        rcases List.mem_cons.mp hmem with heq | hmem'
        · cases heq
          rw [write_settings_safe_cons]
          simp [dictGet]
        · have hpmem : p ∈ dictKeys rest := List.mem_map.mpr ⟨(p, v), hmem', rfl⟩
          have hpq : p ≠ q := fun h => hq_not (h ▸ hpmem)
          rw [write_settings_safe_cons]
          simp only [dictGet]
          rw [if_neg (Ne.symm hpq), ih1 p v hmem',
              (write_setting_safe_congr _ app p v
                (write_setting_safe_get_ne app q w p (Ne.symm hpq))).1]
      · intro p v hmem
        rcases List.mem_cons.mp hmem with heq | hmem'
        · cases heq
          rw [write_settings_safe_cons]
          exact ih3 q hq_not
        · have hpmem : p ∈ dictKeys rest := List.mem_map.mpr ⟨(p, v), hmem', rfl⟩
          have hpq : p ≠ q := fun h => hq_not (h ▸ hpmem)
          rw [write_settings_safe_cons]
          show ((app.write_setting_safe q w).2.write_settings_safe rest).2.get_lq p = _
          rw [ih2 p v hmem',
              (write_setting_safe_congr _ app p v
                (write_setting_safe_get_ne app q w p (Ne.symm hpq))).2]
      · intro p hp
        have hp' : p ≠ q ∧ p ∉ dictKeys rest := by
          constructor
          · intro h
            exact hp (by simp [dictKeys, h])
          · intro h
            exact hp (by simp [dictKeys]; right; simpa [dictKeys] using h)
        rw [write_settings_safe_cons]
        show ((app.write_setting_safe q w).2.write_settings_safe rest).2.get_lq p = _
        rw [ih3 p hp'.2, write_setting_safe_get_ne app q w p (Ne.symm hp'.1)]

/-- Witness for C3: the spec's example input, with `p1` missing, `p2`
writable and `p3` protected, yields the report
`{p1: MISSING, p2: SUCCESS, p3: PROTECTED}`, only `p2`'s value changes,
and `p3` keeps its old value. -/
theorem claim3_witness :
    (dictKeys exM3).Nodup
    ∧ dictGet (exApp3.write_settings_safe exM3).1 "p1" = some WRITE_RES.MISSING
    ∧ dictGet (exApp3.write_settings_safe exM3).1 "p2" = some WRITE_RES.SUCCESS
    ∧ dictGet (exApp3.write_settings_safe exM3).1 "p3" = some WRITE_RES.PROTECTED
    ∧ (exApp3.write_settings_safe exM3).2.get_lq "p2"
        = some (mkLq "p2" "p2" .dtInt (.vInt 2) false)
    ∧ (exApp3.write_settings_safe exM3).2.get_lq "p3"
        = some (mkLq "p3" "p3" .dtInt (.vInt 30) true) :=
  ⟨by decide,
   ((claim3_bulk_partial_success exApp3 exM3 (by decide)).1 "p1" (Value.vInt 1)
      (by decide)).trans (by decide),
   ((claim3_bulk_partial_success exApp3 exM3 (by decide)).1 "p2" (Value.vInt 2)
      (by decide)).trans (by decide),
   ((claim3_bulk_partial_success exApp3 exM3 (by decide)).1 "p3" (Value.vInt 3)
      (by decide)).trans (by decide),
   ((claim3_bulk_partial_success exApp3 exM3 (by decide)).2.1 "p2" (Value.vInt 2)
      (by decide)).trans (by decide),
   ((claim3_bulk_partial_success exApp3 exM3 (by decide)).2.1 "p3" (Value.vInt 3)
      (by decide)).trans (by decide)⟩

/-! ### Read lemmas -/

theorem read_setting_ok (app : BaseApp) (p : String) (isv : Bool) (lq : LoggedQuantity)
    (h : app.get_lq p = some lq) :
    app.read_setting p isv = .ok (if isv then Value.vStr lq.ini_string_value else lq.val) := by
  by_cases hisv : isv <;> simp [BaseApp.read_setting, h, hisv]

theorem read_setting_err (app : BaseApp) (p : String) (isv : Bool)
    (h : app.get_lq p = none) :
    app.read_setting p isv = .error "AttributeError" := by
  simp [BaseApp.read_setting, h]

theorem readLoop_ok (app : BaseApp) (isv : Bool) (ps : List String)
    (h : ∀ p ∈ ps, (app.get_lq p).isSome = true) :
    ∃ l, readLoop app isv ps = .ok l ∧ l.map (·.1) = ps := by
  induction ps with
  | nil => exact ⟨[], rfl, rfl⟩
  | cons p ps ih =>
      rcases hg : app.get_lq p with _ | lq
      · have hp := h p (List.mem_cons_self p ps)
        rw [hg] at hp
        simp at hp
      · obtain ⟨l, hl, hm⟩ := ih (fun q hq => h q (List.mem_cons_of_mem _ hq))
        refine ⟨(p, if isv then Value.vStr lq.ini_string_value else lq.val) :: l, ?_, ?_⟩
        · simp [readLoop, read_setting_ok app p isv lq hg, hl]
        · simp [hm]

theorem readLoop_err (app : BaseApp) (isv : Bool) (ps : List String) (p : String)
    (hmem : p ∈ ps) (hnone : app.get_lq p = none) :
    readLoop app isv ps = .error "AttributeError" := by
  induction ps with
  | nil => cases hmem
  | cons q ps ih =>
      rcases List.mem_cons.mp hmem with heq | hmem'
      · subst heq
        simp [readLoop, read_setting_err app p isv hnone]
      · rcases hgq : app.get_lq q with _ | lq
        · simp [readLoop, read_setting_err app q isv hgq]
        · simp [readLoop, read_setting_ok app q isv lq hgq, ih hmem']

/-! ### Claim C4: batch read error behaviour -/

/-- Counterexample to C4 as stated: on an app with one registered setting,
reading the single unregistered path `app/missing` raises
(`AttributeError`, from the attribute access on `None`) instead of
aggregating a per-item result. -/
theorem claim4_counterexample :
    exApp4.read_settings (some ["app/missing"]) false = .error "AttributeError" := rfl

/-- Claim C4 (amended): `read_settings` with `paths=None` reads every
registered path and never raises; with an explicit path list it aggregates
one entry per path when every path has a registered Setting; but an
individual path with no registered Setting makes the whole batch raise
`AttributeError` — bad paths are not skipped. -/
theorem claim4_amended_read_settings (app : BaseApp) (isv : Bool) :
    (∃ l, app.read_settings none isv = .ok l
        ∧ l.map (·.1) = dictKeys app.setting_paths)
    ∧ (∀ paths, (∀ p ∈ paths, (app.get_lq p).isSome = true) →
        ∃ l, app.read_settings (some paths) isv = .ok l ∧ l.map (·.1) = paths)
    ∧ (∀ paths p, p ∈ paths → app.get_lq p = none →
        app.read_settings (some paths) isv = .error "AttributeError") := by
  refine ⟨?_, ?_, ?_⟩
  · exact readLoop_ok app isv (dictKeys app.setting_paths)
      (fun p hp => dictGet_isSome_of_mem_keys hp)
  · intro paths h
    exact readLoop_ok app isv paths h
  · intro paths p hmem hnone
    exact readLoop_err app isv paths p hmem hnone

/-- Witness for C4 (amended) at a concrete app and path list. -/
theorem claim4_witness :
    (∀ p ∈ ["app/a"], (exApp4.get_lq p).isSome = true)
    ∧ ∃ l, exApp4.read_settings (some ["app/a"]) false = .ok l
        ∧ l.map (·.1) = ["app/a"] :=
  ⟨by decide, (claim4_amended_read_settings exApp4 false).2.1 ["app/a"] (by decide)⟩

/-! ### Lookup shape lemmas -/

theorem collectionLookup_eq (coll : List (String × LoggedQuantity)) (parts : List String) :
    collectionLookup coll parts = dictGet coll (parts.getLastD "") := by
  unfold collectionLookup dictMem
  rcases h : dictGet coll (parts.getLastD "") with _ | lq <;> simp [h]

theorem get_lq_parts_view_cons (db : DataBrowser) (b : String) (t : List String) :
    db.get_lq_parts ("view" :: b :: t) =
      match dictGet db.views b with
      | none => .ok (collectionLookup db.settings ("view" :: b :: t), db)
      | some view =>
          .ok (collectionLookup view.settings ("view" :: b :: t), db.load_view view) := rfl

theorem get_lq_parts_plugin_cons (db : DataBrowser) (b : String) (t : List String) :
    db.get_lq_parts ("plugin" :: b :: t) =
      match dictGet db.plugins b with
      | none => .ok (collectionLookup db.settings ("plugin" :: b :: t), db)
      | some plugin =>
          .ok (collectionLookup plugin.settings ("plugin" :: b :: t), db) := rfl

theorem get_lq_parts_view_some (db : DataBrowser) (b : String) (t : List String)
    (view : DataBrowserView) (hdg : dictGet db.views b = some view) :
    db.get_lq_parts ("view" :: b :: t)
      = .ok (collectionLookup view.settings ("view" :: b :: t), db.load_view view) := by
  rw [get_lq_parts_view_cons, hdg]

theorem get_lq_parts_view_none (db : DataBrowser) (b : String) (t : List String)
    (hdg : dictGet db.views b = none) :
    db.get_lq_parts ("view" :: b :: t)
      = .ok (collectionLookup db.settings ("view" :: b :: t), db) := by
  rw [get_lq_parts_view_cons, hdg]

theorem get_lq_parts_plugin_some (db : DataBrowser) (b : String) (t : List String)
    (plugin : Plugin) (hdg : dictGet db.plugins b = some plugin) :
    db.get_lq_parts ("plugin" :: b :: t)
      = .ok (collectionLookup plugin.settings ("plugin" :: b :: t), db) := by
  rw [get_lq_parts_plugin_cons, hdg]

theorem get_lq_parts_plugin_none (db : DataBrowser) (b : String) (t : List String)
    (hdg : dictGet db.plugins b = none) :
    db.get_lq_parts ("plugin" :: b :: t)
      = .ok (collectionLookup db.settings ("plugin" :: b :: t), db) := by
  rw [get_lq_parts_plugin_cons, hdg]

theorem get_lq_parts_other (db : DataBrowser) (parts : List String)
    (hv : ¬parts.headD "" = "view") (hp : ¬parts.headD "" = "plugin") :
    db.get_lq_parts parts = .ok (collectionLookup db.settings parts, db) := by
  unfold DataBrowser.get_lq_parts
  rw [if_neg hv, if_neg hp]

/-! ### Claim C2: totality of path lookup -/

/-- Counterexample to C2 as stated: the single-segment path `"view"` (fewer
than two `/`-separated segments) makes `DataBrowser.get_lq` raise
`IndexError` at `parts[1]` instead of returning a not-found sentinel. -/
theorem claim2_counterexample :
    exDb2.get_lq "view" = .error "IndexError" := rfl

/-- Claim C2 (amended): for every path string except the two single-segment
paths `"view"` and `"plugin"` — on which `parts[1]` raises `IndexError` —
`DataBrowser.get_lq` returns normally: either the resolved Setting or the
not-found sentinel `None`, never an exception. -/
theorem claim2_amended_lookup_total (db : DataBrowser) (path : String)
    (h1 : splitSlash path ≠ ["view"]) (h2 : splitSlash path ≠ ["plugin"]) :
    ∃ r, db.get_lq path = .ok r := by
  show ∃ r, db.get_lq_parts (splitSlash path) = .ok r
  rcases hsp : splitSlash path with _ | ⟨a, _ | ⟨b, t⟩⟩
  · exact ⟨_, get_lq_parts_other db [] (by decide) (by decide)⟩
  · by_cases hav : a = "view"
    · exact absurd (by rw [hsp, hav]) h1
    · by_cases hap : a = "plugin"
      · exact absurd (by rw [hsp, hap]) h2
      · exact ⟨_, get_lq_parts_other db [a] hav hap⟩
  · by_cases hav : a = "view"
    · subst hav
      rcases hdg : dictGet db.views b with _ | view
      · exact ⟨_, by rw [get_lq_parts_view_cons, hdg]⟩
      · exact ⟨_, by rw [get_lq_parts_view_cons, hdg]⟩
    · by_cases hap : a = "plugin"
      · subst hap
        rcases hdg : dictGet db.plugins b with _ | plugin
        · exact ⟨_, by rw [get_lq_parts_plugin_cons, hdg]⟩
        · exact ⟨_, by rw [get_lq_parts_plugin_cons, hdg]⟩
      · exact ⟨_, get_lq_parts_other db (a :: b :: t) hav hap⟩

/-- Witness for C2 (amended) at a concrete browser and path. -/
theorem claim2_witness :
    splitSlash "app/x" ≠ ["view"] ∧ splitSlash "app/x" ≠ ["plugin"]
    ∧ ∃ r, exDb2.get_lq "app/x" = .ok r :=
  ⟨by decide, by decide, claim2_amended_lookup_total exDb2 "app/x" (by decide) (by decide)⟩

/-! ### Claim C5: path-resolution policy -/

/-- Counterexample to C5 as stated: with no views or plugins and a root
collection whose only member is `b`, the claim's "resolve the whole path
against the root collection" would make `"a/b"` not found (the root has no
member named `"a/b"`), but `get_lq` resolves only the final segment and
returns the Setting `b`. -/
theorem claim5_counterexample :
    dictGet exDb5.settings "a/b" = none
    ∧ exDb5.get_lq "a/b" = .ok (some exLqB, exDb5) :=
  ⟨rfl, rfl⟩

/-- Claim C5 (amended): `get_lq` splits the path on `/`; if the first
segment is `view`/`plugin` and the second segment names a known view or
plugin, the final segment (not the whole remaining suffix) is resolved
against that sub-container's settings collection — lazily loading the view
via `load_view` — and otherwise (unknown section or unknown sub-container
name) the final segment (not the whole path) is resolved against the root
collection directly. -/
theorem claim5_amended_resolution_policy (db : DataBrowser) (path : String) :
    (∀ second view, (splitSlash path).headD "" = "view" →
        (splitSlash path).get? 1 = some second →
        dictGet db.views second = some view →
        db.get_lq path
          = .ok (dictGet view.settings ((splitSlash path).getLastD ""), db.load_view view))
    ∧ (∀ second plugin, (splitSlash path).headD "" = "plugin" →
        (splitSlash path).get? 1 = some second →
        dictGet db.plugins second = some plugin →
        db.get_lq path
          = .ok (dictGet plugin.settings ((splitSlash path).getLastD ""), db))
    ∧ (¬(splitSlash path).headD "" = "view" → ¬(splitSlash path).headD "" = "plugin" →
        db.get_lq path = .ok (dictGet db.settings ((splitSlash path).getLastD ""), db))
    ∧ (∀ second, (splitSlash path).headD "" = "view" →
        (splitSlash path).get? 1 = some second →
        dictGet db.views second = none →
        db.get_lq path = .ok (dictGet db.settings ((splitSlash path).getLastD ""), db))
    ∧ (∀ second, (splitSlash path).headD "" = "plugin" →
        (splitSlash path).get? 1 = some second →
        dictGet db.plugins second = none →
        db.get_lq path = .ok (dictGet db.settings ((splitSlash path).getLastD ""), db)) := by
  refine ⟨?_, ?_, ?_, ?_, ?_⟩
  · intro second view hh hg hdg
    rcases hsp : splitSlash path with _ | ⟨a, _ | ⟨b, t⟩⟩ <;> rw [hsp] at hh hg
    · simp at hh
    · simp at hg
    · simp only [List.headD_cons] at hh
      subst hh
      simp at hg
      subst hg
      show db.get_lq_parts (splitSlash path) = _
      rw [hsp, get_lq_parts_view_some db b t view hdg, collectionLookup_eq]
  · intro second plugin hh hg hdg
    rcases hsp : splitSlash path with _ | ⟨a, _ | ⟨b, t⟩⟩ <;> rw [hsp] at hh hg
    · simp at hh
    · simp at hg
    · simp only [List.headD_cons] at hh
      subst hh
      simp at hg
      subst hg
      show db.get_lq_parts (splitSlash path) = _
      rw [hsp, get_lq_parts_plugin_some db b t plugin hdg, collectionLookup_eq]
  · intro hv hp
    show db.get_lq_parts (splitSlash path) = _
    rw [get_lq_parts_other db _ hv hp, collectionLookup_eq]
  · intro second hh hg hdg
    rcases hsp : splitSlash path with _ | ⟨a, _ | ⟨b, t⟩⟩ <;> rw [hsp] at hh hg
    · simp at hh
    · simp at hg
    · simp only [List.headD_cons] at hh
      subst hh
      simp at hg
      subst hg
      show db.get_lq_parts (splitSlash path) = _
      rw [hsp, get_lq_parts_view_none db b t hdg, collectionLookup_eq]
  · intro second hh hg hdg
    rcases hsp : splitSlash path with _ | ⟨a, _ | ⟨b, t⟩⟩ <;> rw [hsp] at hh hg
    · simp at hh
    · simp at hg
    · simp only [List.headD_cons] at hh
      subst hh
      simp at hg
      subst hg
      show db.get_lq_parts (splitSlash path) = _
      rw [hsp, get_lq_parts_plugin_none db b t hdg, collectionLookup_eq]

/-- Witness for C5 (amended): resolving `view/v1/x` on a browser with the
view `v1` resolves the final segment in the view's collection and lazily
loads the view. -/
theorem claim5_witness :
    (splitSlash "view/v1/x").headD "" = "view"
    ∧ (splitSlash "view/v1/x").get? 1 = some "v1"
    ∧ dictGet exDb5w.views "v1" = some exView5
    ∧ exDb5w.get_lq "view/v1/x"
        = .ok (dictGet exView5.settings ((splitSlash "view/v1/x").getLastD ""),
               exDb5w.load_view exView5) :=
  ⟨by decide, by decide, rfl,
   (claim5_amended_resolution_policy exDb5w "view/v1/x").1 "v1" exView5
     (by decide) (by decide) rfl⟩

/-! ### Claim C6: auto-select priority -/

theorem firstSupported_eq_none (fname : String) (l : List (String × DataBrowserView))
    (h : ∀ p ∈ l, p.2.is_file_supported fname = false) :
    firstSupported fname l = none := by
  induction l with
  | nil => rfl
  | cons e rest ih =>
      obtain ⟨n, v⟩ := e
      have hn : v.is_file_supported fname = false := h (n, v) (List.mem_cons_self _ _)
      have hrest := ih (fun p hp => h p (List.mem_cons_of_mem _ hp))
      simp [firstSupported, hn, hrest]

theorem firstSupported_append (fname : String) (l r : List (String × DataBrowserView)) :
    firstSupported fname (l ++ r) =
      match firstSupported fname l with
      | some n => some n
      | none => firstSupported fname r := by
  induction l with
  | nil => rfl
  | cons e rest ih =>
      obtain ⟨n, v⟩ := e
      by_cases h : v.is_file_supported fname <;> simp [firstSupported, h, ih]

/-- Claim C6: `auto_select_view` returns the name of the last registered
view whose support predicate accepts the file name (reverse registration
order, first hit wins) and falls back to `"file_info"` when no registered
view supports it. -/
theorem claim6_auto_select_priority (db : DataBrowser) (fname : String) :
    ((∀ p ∈ db.views, p.2.is_file_supported fname = false) →
        db.auto_select_view fname = "file_info")
    ∧ (∀ l r (n : String) (v : DataBrowserView), db.views = l ++ (n, v) :: r →
        v.is_file_supported fname = true →
        (∀ p ∈ r, p.2.is_file_supported fname = false) →
        db.auto_select_view fname = n) := by
  constructor
  · intro h
    unfold DataBrowser.auto_select_view
    rw [firstSupported_eq_none fname _ (fun p hp => h p (List.mem_reverse.mp hp))]
    rfl
  · intro l r n v hsplit hsup hrest
    unfold DataBrowser.auto_select_view
    rw [hsplit, List.reverse_append, List.reverse_cons, List.append_assoc,
        firstSupported_append,
        firstSupported_eq_none fname r.reverse
          (fun p hp => hrest p (List.mem_reverse.mp hp))]
    simp [firstSupported, hsup]

/-- Witness for C6: with views registered in order `[A, B, C]` where both
`B` and `C` support `x.dat`, auto-selection picks `C`. -/
theorem claim6_witness :
    exViewC.is_file_supported "x.dat" = true
    ∧ exDb6.views = [("A", exViewA), ("B", exViewB)] ++ ("C", exViewC) :: []
    ∧ exDb6.auto_select_view "x.dat" = "C" :=
  ⟨rfl, rfl,
   (claim6_auto_select_priority exDb6 "x.dat").2 [("A", exViewA), ("B", exViewB)] []
     "C" exViewC rfl rfl (fun p hp => absurd hp (List.not_mem_nil p))⟩

/-! ### Bulk-write and proposal state lemmas -/

theorem write_settings_safe_protected_fixed (app : BaseApp)
    (settings : List (String × Value)) (p : String) (lq : LoggedQuantity)
    (h : app.get_lq p = some lq) (hp : lq.protected_flag = true) :
    (app.write_settings_safe settings).2.get_lq p = some lq := by
  revert h
  induction settings generalizing app with
  | nil => exact fun h => h
  | cons e rest ih =>
      intro h
      obtain ⟨q, w⟩ := e
      rw [write_settings_safe_cons]
      apply ih
      by_cases hq : q = p
      · subst hq
        rw [write_setting_safe_get_self, h]
        simp [hp]
      · rw [write_setting_safe_get_ne _ _ _ _ hq]
        exact h

theorem write_settings_safe_none_fixed (app : BaseApp)
    (settings : List (String × Value)) (p : String)
    (h : app.get_lq p = none) :
    (app.write_settings_safe settings).2.get_lq p = none := by
  revert h
  induction settings generalizing app with
  | nil => exact fun h => h
  | cons e rest ih =>
      intro h
      obtain ⟨q, w⟩ := e
      rw [write_settings_safe_cons]
      apply ih
      by_cases hq : q = p
      · subst hq
        rw [write_setting_safe_get_self, h]
      · rw [write_setting_safe_get_ne _ _ _ _ hq]
        exact h

theorem write_settings_safe_some_shape (app : BaseApp)
    (settings : List (String × Value)) (p : String) (lq : LoggedQuantity)
    (h : app.get_lq p = some lq) :
    ∃ lq2, (app.write_settings_safe settings).2.get_lq p = some lq2
      ∧ lq2.protected_flag = lq.protected_flag
      ∧ lq2.proposed_values = lq.proposed_values := by
  revert h
  induction settings generalizing app lq with
  | nil => exact fun h => ⟨lq, h, rfl, rfl⟩
  | cons e rest ih =>
      intro h
      obtain ⟨q, w⟩ := e
      rw [write_settings_safe_cons]
      by_cases hq : q = p
      · subst hq
        by_cases hp : lq.protected_flag
        · exact ih ((app.write_setting_safe q w).2) lq
            (by rw [write_setting_safe_get_self, h]; simp [hp])
        · obtain ⟨lq2, h2, hf, hpr⟩ := ih ((app.write_setting_safe q w).2)
            (lq.update_value w)
            (by rw [write_setting_safe_get_self, h]; simp [hp])
          exact ⟨lq2, h2, hf, hpr⟩
      · exact ih ((app.write_setting_safe q w).2) lq
          (by rw [write_setting_safe_get_ne _ _ _ _ hq]; exact h)

theorem propose_settings_values_cons (app : BaseApp) (name q : String) (w : Value)
    (rest : List (String × Value)) :
    app.propose_settings_values name ((q, w) :: rest) =
      (match app.get_lq q with
        | none => app
        | some lq =>
            BaseApp.mk (dictSet app.setting_paths q (lq.propose_value name w))
      ).propose_settings_values name rest := rfl

theorem propose_frame_not_mem (app : BaseApp) (name : String)
    (settings : List (String × Value)) (p : String)
    (h : p ∉ dictKeys settings) :
    (app.propose_settings_values name settings).get_lq p = app.get_lq p := by
  induction settings generalizing app with
  | nil => rfl
  | cons e rest ih =>
      obtain ⟨q, w⟩ := e
      have hq : q ≠ p := by
        intro heq
        exact h (by simp [dictKeys, heq])
      have hrest : p ∉ dictKeys rest := by
        intro hmem
        exact h (by simp [dictKeys]; right; simpa [dictKeys] using hmem)
      rw [propose_settings_values_cons]
      rcases hg : app.get_lq q with _ | lq
      · exact ih app hrest
      · show ((BaseApp.mk (dictSet app.setting_paths q (lq.propose_value name w))
            ).propose_settings_values name rest).get_lq p = app.get_lq p
        rw [ih _ hrest]
        show dictGet (dictSet app.setting_paths q (lq.propose_value name w)) p
          = dictGet app.setting_paths p
        rw [dictGet_set_ne _ _ _ _ hq]

theorem propose_none_fixed (app : BaseApp) (name : String)
    (settings : List (String × Value)) (p : String)
    (h : app.get_lq p = none) :
    (app.propose_settings_values name settings).get_lq p = none := by
  revert h
  induction settings generalizing app with
  | nil => exact fun h => h
  | cons e rest ih =>
      intro h
      obtain ⟨q, w⟩ := e
      rw [propose_settings_values_cons]
      rcases hg : app.get_lq q with _ | lq
      · exact ih app h
      · have hq : q ≠ p := by
          intro heq
          rw [heq, h] at hg
          cases hg
        show ((BaseApp.mk (dictSet app.setting_paths q (lq.propose_value name w))
            ).propose_settings_values name rest).get_lq p = none
        apply ih
        show dictGet (dictSet app.setting_paths q (lq.propose_value name w)) p = none
        rw [dictGet_set_ne _ _ _ _ hq]
        exact h

theorem propose_mem_nodup (app : BaseApp) (name : String)
    (settings : List (String × Value)) (p : String) (v : Value) (lq : LoggedQuantity)
    (hnd : (dictKeys settings).Nodup) (hmem : (p, v) ∈ settings)
    (h : app.get_lq p = some lq) :
    (app.propose_settings_values name settings).get_lq p
      = some (lq.propose_value name v) := by
  revert hnd hmem h
  induction settings generalizing app with
  | nil => exact fun _ hmem _ => absurd hmem (List.not_mem_nil _)
  | cons e rest ih =>
      intro hnd hmem h
      obtain ⟨q, w⟩ := e
      rw [dictKeys, List.map_cons, List.nodup_cons] at hnd
      have hq_not : q ∉ dictKeys rest := by simpa [dictKeys] using hnd.1
      rw [propose_settings_values_cons]
      rcases List.mem_cons.mp hmem with heq | hmem'
      · cases heq
        rw [h, propose_frame_not_mem _ _ _ _ hq_not]
        show dictGet (dictSet app.setting_paths p (lq.propose_value name v)) p = _
        rw [dictGet_set_self]
      · have hpmem : p ∈ dictKeys rest := List.mem_map.mpr ⟨(p, v), hmem', rfl⟩
        have hpq : q ≠ p := fun heq => hq_not (heq ▸ hpmem)
        rcases hg : app.get_lq q with _ | lqq
        · exact ih app hnd.2 hmem' h
        · show ((BaseApp.mk (dictSet app.setting_paths q (lqq.propose_value name w))
              ).propose_settings_values name rest).get_lq p = _
          apply ih _ hnd.2 hmem'
          show dictGet (dictSet app.setting_paths q (lqq.propose_value name w)) p = _
          rw [dictGet_set_ne _ _ _ _ hpq]
          exact h

theorem propose_val_flag_fixed (app : BaseApp) (name : String)
    (settings : List (String × Value)) (p : String) (lq : LoggedQuantity)
    (h : app.get_lq p = some lq) :
    ∃ lq', (app.propose_settings_values name settings).get_lq p = some lq'
      ∧ lq'.val = lq.val ∧ lq'.protected_flag = lq.protected_flag := by
  revert h
  induction settings generalizing app lq with
  | nil => exact fun h => ⟨lq, h, rfl, rfl⟩
  | cons e rest ih =>
      intro h
      obtain ⟨q, w⟩ := e
      rw [propose_settings_values_cons]
      rcases hg : app.get_lq q with _ | lqq
      · exact ih app lq h
      · by_cases hq : q = p
        · subst hq
          have hlq : lqq = lq := by
            rw [h] at hg
            exact (Option.some.inj hg).symm
          subst hlq
          exact ih (BaseApp.mk (dictSet app.setting_paths q (lqq.propose_value name w)))
            (lqq.propose_value name w)
            (by
              show dictGet (dictSet app.setting_paths q (lqq.propose_value name w)) q = _
              rw [dictGet_set_self])
        · exact ih (BaseApp.mk (dictSet app.setting_paths q (lqq.propose_value name w))) lq
            (by
              show dictGet (dictSet app.setting_paths q (lqq.propose_value name w)) p = _
              rw [dictGet_set_ne _ _ _ _ hq]
              exact h)

theorem settings_load_ini_snd (app : BaseApp) (fname : String)
    (file : List (String × Value)) :
    (app.settings_load_ini fname file).2
      = ((app.write_settings_safe file).2).propose_settings_values (pathName fname) file :=
  rfl

theorem settings_load_ini_fst (app : BaseApp) (fname : String)
    (file : List (String × Value)) :
    (app.settings_load_ini fname file).1 = file := rfl

/-! ### Claim C7: load-ini proposal provenance -/

/-- Counterexample to C7 as stated: loading a file whose single path
`gone` is no longer registered leaves the app state completely unchanged —
in particular no proposal labelled with the file's name is recorded
anywhere, although the claim requires one for no-longer-registered
paths too. -/
theorem claim7_counterexample :
    BaseApp.settings_load_ini ⟨[]⟩ "fileA.ini" [("gone", Value.vStr "5")]
      = ([("gone", Value.vStr "5")], ⟨[]⟩) := rfl

/-- Claim C7 (amended): `settings_load_ini` applies the loaded mapping via
`write_settings_safe` and then records every loaded raw value as a
proposal labelled with the source file's name for every loaded path that
still resolves — including protected ones — without changing the current
value of any protected Setting; loaded paths with no registered Setting
are silently skipped (nothing is recorded for them). -/
theorem claim7_amended_load_ini_proposals (app : BaseApp) (fname : String)
    (file : List (String × Value)) (hnd : (dictKeys file).Nodup) :
    (∀ p lq, app.get_lq p = some lq → lq.protected_flag = true →
        ∃ lq', (app.settings_load_ini fname file).2.get_lq p = some lq'
          ∧ lq'.val = lq.val)
    ∧ (∀ p v lq, (p, v) ∈ file → app.get_lq p = some lq →
        ∃ lq', (app.settings_load_ini fname file).2.get_lq p = some lq'
          ∧ dictGet lq'.proposed_values (pathName fname) = some v)
    ∧ (∀ p, app.get_lq p = none →
        (app.settings_load_ini fname file).2.get_lq p = none) := by
  refine ⟨?_, ?_, ?_⟩
  · intro p lq h hp
    rw [settings_load_ini_snd]
    have h1 := write_settings_safe_protected_fixed app file p lq h hp
    obtain ⟨lq', hget, hval, _⟩ :=
      propose_val_flag_fixed _ (pathName fname) file p lq h1
    exact ⟨lq', hget, hval⟩
  · intro p v lq hmem h
    rw [settings_load_ini_snd]
    obtain ⟨lq2, h2, _, _⟩ := write_settings_safe_some_shape app file p lq h
    refine ⟨lq2.propose_value (pathName fname) v, ?_, ?_⟩
    · exact propose_mem_nodup _ (pathName fname) file p v lq2 hnd hmem h2
    · show dictGet (dictSet lq2.proposed_values (pathName fname) v) (pathName fname)
          = some v
      rw [dictGet_set_self]
  · intro p h
    rw [settings_load_ini_snd]
    exact propose_none_fixed _ (pathName fname) file p
      (write_settings_safe_none_fixed app file p h)

/-- Witness for C7 (amended): loading `fileA.ini` proposing 5 for the
protected Setting `app/p` currently valued 10 leaves its value at 10 and
records that `fileA.ini` proposed 5. -/
theorem claim7_witness :
    (dictKeys [("app/p", Value.vInt 5)]).Nodup
    ∧ exApp7.get_lq "app/p" = some (mkLq "p" "app/p" .dtInt (.vInt 10) true)
    ∧ (∃ lq', (exApp7.settings_load_ini "fileA.ini" [("app/p", Value.vInt 5)]).2.get_lq "app/p"
          = some lq' ∧ lq'.val = (mkLq "p" "app/p" .dtInt (.vInt 10) true).val)
    ∧ (∃ lq', (exApp7.settings_load_ini "fileA.ini" [("app/p", Value.vInt 5)]).2.get_lq "app/p"
          = some lq'
          ∧ dictGet lq'.proposed_values (pathName "fileA.ini") = some (Value.vInt 5)) :=
  ⟨by decide, by decide,
   (claim7_amended_load_ini_proposals exApp7 "fileA.ini" [("app/p", Value.vInt 5)]
      (by decide)).1 "app/p" (mkLq "p" "app/p" .dtInt (.vInt 10) true)
      (by decide) (by decide),
   (claim7_amended_load_ini_proposals exApp7 "fileA.ini" [("app/p", Value.vInt 5)]
      (by decide)).2.1 "app/p" (Value.vInt 5) (mkLq "p" "app/p" .dtInt (.vInt 10) true)
      (by decide) (by decide)⟩

/-! ### Claim C10: lazy view-setup idempotence -/

theorem setup_view_loaded_eq (db : DataBrowser) (name : String) (view : DataBrowserView)
    (h : dictGet db.views name = some view) (hl : view.view_loaded = true) :
    db.setup_view name
      = { db with current_view := name,
                  current_index := dictGet db.view_stack_indices name } := by
  unfold DataBrowser.setup_view
  rw [h]
  simp [hl]

theorem setup_view_unloaded_views (db : DataBrowser) (name : String)
    (view : DataBrowserView)
    (h : dictGet db.views name = some view) (hl : view.view_loaded = false) :
    (db.setup_view name).views
      = dictSet db.views name
          { view with setup_count := view.setup_count + 1, view_loaded := true } := by
  unfold DataBrowser.setup_view
  rw [h]
  simp [hl]

theorem setup_view_iterate_loaded (name : String) (view' : DataBrowserView)
    (hl : view'.view_loaded = true) :
    ∀ (j : Nat) (s : DataBrowser), dictGet s.views name = some view' →
      dictGet (((fun s : DataBrowser => s.setup_view name)^[j]) s).views name = some view' := by
  intro j
  induction j with
  | zero => exact fun s hs => hs
  | succ j ih =>
      intro s hs
      rw [Function.iterate_succ_apply]
      apply ih
      rw [setup_view_loaded_eq s name view' hs hl]
      exact hs

/-- Claim C10: activating a registered, not-yet-loaded view any number of
times via `setup_view` runs its setup exactly once — after the first
activation it is loaded with `setup_count` bumped by one, and every
further activation leaves it (and the whole `views` table) untouched; on
an already-loaded view `setup_view` only switches the current view and the
displayed stack index. -/
theorem claim10_lazy_view_idempotence (db : DataBrowser) (name : String)
    (view : DataBrowserView) (h : dictGet db.views name = some view) :
    (view.view_loaded = false →
        ∀ k, 1 ≤ k →
          dictGet (((fun s : DataBrowser => s.setup_view name)^[k]) db).views name
            = some { view with setup_count := view.setup_count + 1, view_loaded := true })
    ∧ (view.view_loaded = true →
        db.setup_view name
          = { db with current_view := name,
                      current_index := dictGet db.view_stack_indices name }) := by
  constructor
  · intro hl k hk
    obtain ⟨j, rfl⟩ : ∃ j, k = j + 1 := ⟨k - 1, by omega⟩
    rw [Function.iterate_succ_apply]
    apply setup_view_iterate_loaded name _ rfl
    rw [setup_view_unloaded_views db name view h hl, dictGet_set_self]
  · exact setup_view_loaded_eq db name view h

/-- Witness for C10: activating the unloaded view `v` twice bumps its
setup count exactly once and leaves it loaded. -/
theorem claim10_witness :
    dictGet exDb10.views "v" = some exView10
    ∧ exView10.view_loaded = false
    ∧ dictGet (((fun s : DataBrowser => s.setup_view "v")^[2]) exDb10).views "v"
        = some { exView10 with setup_count := exView10.setup_count + 1,
                               view_loaded := true } :=
  ⟨rfl, rfl,
   (claim10_lazy_view_idempotence exDb10 "v" exView10 rfl).1 rfl 2 (by norm_num)⟩

/-! ### Claim C8: INI round-trip -/

theorem readLoop_keys_true (app : BaseApp) (l : List (String × LoggedQuantity))
    (h : ∀ e ∈ l, app.get_lq e.1 = some e.2) :
    readLoop app true (dictKeys l)
      = .ok (l.map (fun e => (e.1, Value.vStr (iniStringValue e.2.val)))) := by
  induction l with
  | nil => rfl
  | cons e rest ih =>
      obtain ⟨q, lq⟩ := e
      have hq : app.get_lq q = some lq := h (q, lq) (List.mem_cons_self _ _)
      have hrest := ih (fun e he => h e (List.mem_cons_of_mem _ he))
      show readLoop app true (q :: dictKeys rest) = _
      simp [readLoop, read_setting_ok app q true lq hq, hrest,
        LoggedQuantity.ini_string_value]

theorem dictGet_map_ini (l : List (String × LoggedQuantity)) (k : String) :
    dictGet (l.map (fun e => (e.1, Value.vStr (iniStringValue e.2.val)))) k
      = Option.map (fun lq : LoggedQuantity => Value.vStr (iniStringValue lq.val))
          (dictGet l k) := by
  induction l with
  | nil => rfl
  | cons e rest ih =>
      obtain ⟨q, w⟩ := e
      by_cases h : q = k <;> simp [dictGet, h, ih]

/-- Claim C8: saving the registered settings to an INI file and loading the
file back reconstructs, for every path registered (with an agreeing dtype)
at both save and load time and holding a well-typed value, exactly the
value that was saved: the loaded canonical string parses back to the saved
value. -/
theorem claim8_ini_round_trip (a b : BaseApp) (f g p : String)
    (lqS lqL : LoggedQuantity)
    (hnd : (dictKeys a.setting_paths).Nodup)
    (hS : a.get_lq p = some lqS)
    (hL : b.get_lq p = some lqL)
    (hdt : lqL.dtype = lqS.dtype)
    (hwt : wellTyped lqS.dtype lqS.val = true) :
    ∃ file a', a.settings_save_ini f = .ok (file, a')
      ∧ ∃ s, dictGet (b.settings_load_ini g file).1 p = some (Value.vStr s)
          ∧ parseIniString lqL.dtype s = lqS.val := by
  have hread : a.read_settings none true
      = .ok (a.setting_paths.map (fun e => (e.1, Value.vStr (iniStringValue e.2.val)))) := by
    show readLoop a true (dictKeys a.setting_paths) = _
    exact readLoop_keys_true a a.setting_paths
      (fun e he => dictGet_of_mem_nodup hnd (by exact he))
  refine ⟨a.setting_paths.map (fun e => (e.1, Value.vStr (iniStringValue e.2.val))),
          a.propose_settings_values (pathName f)
            (a.setting_paths.map (fun e => (e.1, Value.vStr (iniStringValue e.2.val)))),
          ?_, ?_⟩
  · unfold BaseApp.settings_save_ini
    rw [hread]
    rfl
  · refine ⟨iniStringValue lqS.val, ?_, ?_⟩
    · rw [settings_load_ini_fst, dictGet_map_ini]
      rw [show dictGet a.setting_paths p = some lqS from hS]
      rfl
    · rw [hdt]
      exact parse_iniStringValue hwt

/-- Witness for C8 at a one-setting app holding the integer -42. -/
theorem claim8_witness :
    (dictKeys exApp8.setting_paths).Nodup
    ∧ exApp8.get_lq "app/n" = some (mkLq "n" "app/n" .dtInt (.vInt (-42)) false)
    ∧ wellTyped DType.dtInt (Value.vInt (-42)) = true
    ∧ ∃ file a', exApp8.settings_save_ini "sub/a.ini" = .ok (file, a')
        ∧ ∃ s, dictGet (exApp8.settings_load_ini "b.ini" file).1 "app/n"
              = some (Value.vStr s)
            ∧ parseIniString (mkLq "n" "app/n" .dtInt (.vInt (-42)) false).dtype s
              = (mkLq "n" "app/n" .dtInt (.vInt (-42)) false).val :=
  ⟨by decide, by decide, by decide,
   claim8_ini_round_trip exApp8 exApp8 "sub/a.ini" "b.ini" "app/n"
     (mkLq "n" "app/n" .dtInt (.vInt (-42)) false)
     (mkLq "n" "app/n" .dtInt (.vInt (-42)) false)
     (by decide) (by decide) (by decide) (by decide) (by decide)⟩

end ScopeFoundry
